import Mathlib

/-!
Verification of the diff-anchored edit pipeline of the ContinuousIntegration
repository (files `.github/workflows/ai_review.py` and
`.github/scripts/ai_review_suggestions.py`).

The Python core is embedded shallowly: Python `int` becomes `ℤ`, Python
strings become `String`, Python sets of line numbers become `Finset ℤ`,
and code that can raise becomes `Except`/`Option`-valued.  Each definition
is translated from the corresponding Python function and keeps its name
where Lean allows it.
-/

/-! ## Python string primitives used by the pipeline -/

/-- Index of the first occurrence of the pattern `n` inside the remaining
haystack, where `i` is the absolute index of the head of the remaining
haystack.  Models the search underlying Python `str.find`. -/
def firstOccurFrom (n : List Char) : List Char → ℕ → Option ℕ
  | [], i => if n.isPrefixOf ([] : List Char) then some i else none
  | c :: t, i => if n.isPrefixOf (c :: t) then some i else firstOccurFrom n t (i + 1)

/-- Python `content.find(sub)`: index of the first occurrence, `none` for `-1`. -/
def strFindIdx (content sub : String) : Option ℕ :=
  firstOccurFrom sub.data content.data 0

/-- The pattern `sub` occurs in `content` starting at character index `i`. -/
def occursAtB (content sub : String) (i : ℕ) : Bool :=
  sub.data.isPrefixOf (content.data.drop i)

/-- Whether `sub` occurs anywhere in `s` (Python `sub in s`). -/
def containsSubstr (s sub : String) : Bool :=
  (strFindIdx s sub).isSome

/-- One fuelled step list for Python `str.replace`: replaces non-overlapping
occurrences of `pat` left to right by `rep`.  The fuel is the length of the
input, which suffices because each step consumes at least one character
(the pipeline only calls this with non-empty patterns). -/
def pyReplaceAux (pat rep : List Char) : ℕ → List Char → List Char
  | 0, l => l
  | fuel + 1, l =>
    if pat.isPrefixOf l ∧ pat ≠ [] then
      rep ++ pyReplaceAux pat rep fuel (l.drop pat.length)
    else
      match l with
      | [] => []
      | c :: t => c :: pyReplaceAux pat rep fuel t

/-- Python `s.replace(pat, rep)` for non-empty `pat`. -/
def pyReplace (s pat rep : String) : String :=
  ⟨pyReplaceAux pat.data rep.data s.data.length s.data⟩

/-- Python `s.rstrip("\n")`: drop trailing newline characters. -/
def pyRstripNl (s : String) : String :=
  ⟨(s.data.reverse.dropWhile (fun c => c == '\n')).reverse⟩

/-- Python `bool(s.strip()) == False`: the string consists only of
whitespace characters (the characters Python `str.strip` removes). -/
def pyStripEmpty (s : String) : Bool :=
  s.data.all fun c =>
    c == ' ' || c == '\t' || c == '\n' || c == '\r' || c == '\x0b' || c == '\x0c'

/-- Python list slice `l[:k]`, including the negative-stop convention. -/
def pySliceTo {α : Type} (k : ℤ) (l : List α) : List α :=
  if 0 ≤ k then l.take k.toNat else l.take (l.length - (-k).toNat)

/-- Python `str.splitlines`.  Line terminators handled: `\n`, `\r\n`, `\r`
and the rarer ASCII/Unicode terminators `\x0b`, `\x0c`, `\x1c`, `\x1d`,
`\x1e`, `\x85`, ` `, ` ` that Python also splits on.
A trailing terminator does not produce a final empty line. -/
def pySplitlinesAux : List Char → List Char → List String
  | [], acc => if acc = [] then [] else [String.mk acc.reverse]
  | '\r' :: '\n' :: rest, acc => String.mk acc.reverse :: pySplitlinesAux rest []
  | '\r' :: rest, acc => String.mk acc.reverse :: pySplitlinesAux rest []
  | c :: rest, acc =>
    if c == '\n' || c == '\x0b' || c == '\x0c' || c == '\x1c' || c == '\x1d' ||
       c == '\x1e' || c == '\x85' || c == ' ' || c == ' ' then
      String.mk acc.reverse :: pySplitlinesAux rest []
    else
      pySplitlinesAux rest (c :: acc)

/-- Python `s.splitlines()`. -/
def pySplitlines (s : String) : List String :=
  pySplitlinesAux s.data []

/-- Split on a single separator character, keeping empty parts: Python
`s.split(sep)` for a one-character separator. -/
def pySplitCharAux (sep : Char) : List Char → List Char → List String
  | [], acc => [String.mk acc.reverse]
  | c :: rest, acc =>
    if c == sep then String.mk acc.reverse :: pySplitCharAux sep rest []
    else pySplitCharAux sep rest (c :: acc)

/-- Python `s.split(sep)` for a one-character separator `sep`. -/
def pySplitChar (sep : Char) (s : String) : List String :=
  pySplitCharAux sep s.data []

/-- Python `s.startswith(pre)`. -/
def pyStartsWith (s pre : String) : Bool :=
  pre.data.isPrefixOf s.data

/-! ## Suggestion Validator (`clamp_and_validate_range`, ai_review.py 213-222) -/

/-- Translation of `clamp_and_validate_range(start_line, end_line,
right_lines, min_r, max_r)`: swap a reversed range, clamp `start` up to
`min_r` and `end` down to `max_r`, reject an empty clamped range, and
otherwise accept exactly when some line of the clamped inclusive range is
in `right_lines` (Python
`any(ln in right_lines for ln in range(start_line, end_line + 1))`). -/
def clamp_and_validate_range (start_line end_line : ℤ) (right_lines : Finset ℤ)
    (min_r max_r : ℤ) : ℤ × ℤ × Bool :=
  let p := if start_line > end_line then (end_line, start_line) else (start_line, end_line)
  let s := max min_r p.1
  let e := min max_r p.2
  if s > e then (s, e, false)
  else (s, e, decide (∃ ln ∈ Finset.Icc s e, ln ∈ right_lines))

/-- Closed form of `clamp_and_validate_range`: the returned pair is the
order-normalized input clamped into `[min_r, max_r]`, and the flag is true
exactly when the clamped inclusive range meets `right_lines` (an empty
clamped range meets nothing, so the early `false` return folds in). -/
theorem clamp_eq (s e mn mx : ℤ) (S : Finset ℤ) :
    clamp_and_validate_range s e S mn mx =
      (max mn (min s e), min mx (max s e),
       decide (∃ ln ∈ Finset.Icc (max mn (min s e)) (min mx (max s e)), ln ∈ S)) := by
  by_cases hse : s > e
  · simp only [clamp_and_validate_range, if_pos hse]
    rw [min_eq_right hse.le, max_eq_left hse.le]
    by_cases hc : max mn e > min mx s
    · rw [if_pos hc, Finset.Icc_eq_empty (not_le.mpr hc)]
      simp
    · rw [if_neg hc]
  · simp only [clamp_and_validate_range, if_neg hse]
    push_neg at hse
    rw [min_eq_left hse, max_eq_right hse]
    by_cases hc : max mn s > min mx e
    · rw [if_pos hc, Finset.Icc_eq_empty (not_le.mpr hc)]
      simp
    · rw [if_neg hc]

/-- C1: `clamp_and_validate_range` first swaps a reversed range, then raises
the start to at least `min_r` and lowers the end to at most `max_r`; it
rejects exactly when the clamped start exceeds the clamped end or when no
line of the clamped inclusive range lies in `right_lines`; and it is
symmetric in its first two arguments. -/
theorem clamp_and_validate_range_spec (s e mn mx : ℤ) (S : Finset ℤ) :
    (clamp_and_validate_range s e S mn mx).1 = max mn (min s e) ∧
    (clamp_and_validate_range s e S mn mx).2.1 = min mx (max s e) ∧
    ((clamp_and_validate_range s e S mn mx).2.2 = false ↔
      ((clamp_and_validate_range s e S mn mx).1 > (clamp_and_validate_range s e S mn mx).2.1 ∨
       ∀ ln ∈ Finset.Icc (clamp_and_validate_range s e S mn mx).1
          (clamp_and_validate_range s e S mn mx).2.1, ln ∉ S)) ∧
    clamp_and_validate_range s e S mn mx = clamp_and_validate_range e s S mn mx := by
  refine ⟨by rw [clamp_eq], by rw [clamp_eq], ?_, ?_⟩
  · simp only [clamp_eq, decide_eq_false_iff_not, not_exists, not_and]
    constructor
    · intro hno
      exact Or.inr fun ln hln hmem => hno ln hln hmem
    · rintro (hgt | hno)
      · intro ln hln _
        rw [Finset.mem_Icc] at hln
        omega
      · exact fun ln hln hmem => hno ln hln hmem
  · rw [clamp_eq s e mn mx S, clamp_eq e s mn mx S, min_comm e s, max_comm e s]

/-- C7 counterexample: clamping is not idempotent.  With bounds
`(min_r, max_r, covered) = (1, 3, {1, 2, 3})` the range `(10, 12)` clamps to
`(10, 3)` and is rejected, but clamping the produced pair `(10, 3)` again
swaps it and accepts `(3, 3)`. -/
theorem clamp_not_idempotent :
    clamp_and_validate_range 10 12 ({1, 2, 3} : Finset ℤ) 1 3 = (10, 3, false) ∧
    clamp_and_validate_range 10 3 ({1, 2, 3} : Finset ℤ) 1 3 = (3, 3, true) := by
  constructor <;> decide

/-- C7 amended: clamping is idempotent whenever the first application
produces a non-reversed pair, i.e. clamped start at most clamped end (in
particular whenever the first application accepts; the counterexample
only arises for rejected ranges whose clamped start exceeds the clamped
end, which the second application re-swaps). -/
theorem clamp_idempotent_of_ordered (s e mn mx : ℤ) (S : Finset ℤ)
    (h : (clamp_and_validate_range s e S mn mx).1 ≤ (clamp_and_validate_range s e S mn mx).2.1) :
    clamp_and_validate_range (clamp_and_validate_range s e S mn mx).1
      (clamp_and_validate_range s e S mn mx).2.1 S mn mx =
    clamp_and_validate_range s e S mn mx := by
  simp only [clamp_eq] at h ⊢
  have h1 : min (max mn (min s e)) (min mx (max s e)) = max mn (min s e) := min_eq_left h
  have h2 : max (max mn (min s e)) (min mx (max s e)) = min mx (max s e) := max_eq_right h
  have h3 : max mn (max mn (min s e)) = max mn (min s e) :=
    max_eq_right (le_max_left mn (min s e))
  have h4 : min mx (min mx (max s e)) = min mx (max s e) :=
    min_eq_right (min_le_left mx (max s e))
  rw [h1, h2, h3, h4]

/-- C7 amended witness: the range `(2, 5)` against bounds `(1, 9, {3})`
clamps to `(2, 5)` with `2 ≤ 5`, and re-clamping reproduces it. -/
theorem clamp_idempotent_witness :
    (clamp_and_validate_range 2 5 ({3} : Finset ℤ) 1 9).1 ≤
      (clamp_and_validate_range 2 5 ({3} : Finset ℤ) 1 9).2.1 ∧
    clamp_and_validate_range (clamp_and_validate_range 2 5 ({3} : Finset ℤ) 1 9).1
      (clamp_and_validate_range 2 5 ({3} : Finset ℤ) 1 9).2.1 ({3} : Finset ℤ) 1 9 =
    clamp_and_validate_range 2 5 ({3} : Finset ℤ) 1 9 :=
  ⟨by decide, clamp_idempotent_of_ordered 2 5 1 9 ({3} : Finset ℤ) (by decide)⟩

/-! ## Replacement sanitizer (`sanitize_replacement`, ai_review.py 224-226) -/

/-- Translation of `sanitize_replacement(repl)`:
`repl.replace("```", "``​`").rstrip("\n")`. -/
def sanitize_replacement (repl : String) : String :=
  pyRstripNl (pyReplace repl "```" "``​`")

/-- Body of an anchored suggestion comment in ai_review_suggestions.py
line 316: `f"{note}\n\n```suggestion\n{replacement}\n```"`.  Note the
replacement is embedded with no sanitization in this script. -/
def suggestion_comment_body (note replacement : String) : String :=
  note ++ "\n\n```suggestion\n" ++ replacement ++ "\n```"

/-- C6 evaluation at the failing input: sanitizing six consecutive
backticks still leaves three consecutive backticks in the output, because
the two non-overlapping replacements place a bare backtick next to the
leading double backtick of the next replacement; and the suggestions
script embeds the replacement text into the rendered suggestion block
without any sanitization at all. -/
theorem sanitize_replacement_fence_bug :
    containsSubstr (sanitize_replacement "``````") "```" = true ∧
    sanitize_replacement "``````" = "``​```​`" ∧
    containsSubstr (sanitize_replacement "```") "```" = false ∧
    suggestion_comment_body "note" "x``````x" =
      "note\n\n```suggestion\nx``````x\n```" := by
  refine ⟨by decide, by decide, by decide, rfl⟩

/-! ## Edit Applier (`apply_edits_and_commit`, ai_review.py 269-297) -/

/-- One resolved edit of the per-file edit batch: the values
`{ "start_line", "end_line", "replacement" }` of the Python dict. -/
structure Edit where
  start_line : ℤ
  end_line : ℤ
  replacement : String
deriving DecidableEq

/-- The in-range test of the splice step (ai_review.py 287-291):
`e_idx >= s_idx and 0 <= s_idx < len(lines)` with
`s_idx = max(0, s - 1)` and `e_idx = min(len(lines) - 1, e - 1) if lines
else -1`. -/
def edit_guard (lines : List String) (ch : Edit) : Bool :=
  let s_idx : ℤ := max 0 (ch.start_line - 1)
  let e_idx : ℤ := if lines = [] then -1 else min ((lines.length : ℤ) - 1) (ch.end_line - 1)
  decide (e_idx ≥ s_idx ∧ 0 ≤ s_idx ∧ s_idx < (lines.length : ℤ))

/-- One iteration of the apply loop (ai_review.py 284-294): splice the
0-based index range `[s_idx, e_idx]` out of `lines` and insert the
replacement lines (`ch["replacement"].splitlines()`), or skip the edit
(leaving the lines unchanged, with only a diagnostic print) when the
range is invalid. -/
def apply_one_edit (lines : List String) (ch : Edit) : List String :=
  if edit_guard lines ch then
    let s_idx : ℤ := max 0 (ch.start_line - 1)
    let e_idx : ℤ := if lines = [] then -1 else min ((lines.length : ℤ) - 1) (ch.end_line - 1)
    lines.take s_idx.toNat ++ pySplitlines ch.replacement ++ lines.drop (e_idx + 1).toNat
  else lines

/-- Stable insertion into a descending-by-`start_line` list; an element is
placed before the first strictly smaller start line, and after earlier
elements with an equal start line. -/
def insertDescByStart (c : Edit) : List Edit → List Edit
  | [] => [c]
  | x :: xs => if x.start_line ≤ c.start_line then c :: x :: xs else x :: insertDescByStart c xs

/-- Python `sorted(changes, key=lambda x: x["start_line"], reverse=True)`:
a stable descending sort by `start_line`. -/
def pySortedByStartDesc (l : List Edit) : List Edit :=
  l.foldr insertDescByStart []

/-- The pure per-file core of `apply_edits_and_commit`: read the file as a
list of lines, then apply each edit, greatest `start_line` first, against
the progressively mutated line list. -/
def apply_edits_to_lines (lines : List String) (changes : List Edit) : List String :=
  (pySortedByStartDesc changes).foldl apply_one_edit lines

/-- Membership in an insertion: the inserted element or an original one. -/
theorem mem_insertDescByStart {y c : Edit} : ∀ {l : List Edit},
    y ∈ insertDescByStart c l → y = c ∨ y ∈ l := by
  intro l
  induction l with
  | nil =>
    intro h
    simp only [insertDescByStart, List.mem_singleton] at h
    exact Or.inl h
  | cons x xs ih =>
    intro h
    by_cases hx : x.start_line ≤ c.start_line
    · simp only [insertDescByStart, if_pos hx, List.mem_cons] at h
      rcases h with h | h
      · exact Or.inl h
      · exact Or.inr (List.mem_cons.mpr h)
    · simp only [insertDescByStart, if_neg hx, List.mem_cons] at h
      rcases h with h | h
      · exact Or.inr (List.mem_cons.mpr (Or.inl h))
      · rcases ih h with h2 | h2
        · exact Or.inl h2
        · exact Or.inr (List.mem_cons.mpr (Or.inr h2))

/-- Inserting into a descending list keeps it descending. -/
theorem pairwise_insertDescByStart (c : Edit) : ∀ (l : List Edit),
    l.Pairwise (fun a b => b.start_line ≤ a.start_line) →
    (insertDescByStart c l).Pairwise (fun a b => b.start_line ≤ a.start_line) := by
  intro l
  induction l with
  | nil => intro _; simp [insertDescByStart]
  | cons x xs ih =>
    intro h
    rw [List.pairwise_cons] at h
    by_cases hx : x.start_line ≤ c.start_line
    · simp only [insertDescByStart, if_pos hx]
      rw [List.pairwise_cons]
      refine ⟨?_, List.pairwise_cons.mpr h⟩
      intro y hy
      rw [List.mem_cons] at hy
      rcases hy with hy | hy
      · simpa [hy] using hx
      · exact le_trans (h.1 y hy) hx
    · simp only [insertDescByStart, if_neg hx]
      rw [List.pairwise_cons]
      refine ⟨?_, ih h.2⟩
      intro y hy
      rcases mem_insertDescByStart hy with hy2 | hy2
      · subst hy2
        exact le_of_not_le hx
      · exact h.1 y hy2

/-- An edit failing the range guard leaves the content unchanged. -/
theorem apply_one_edit_of_guard_false (ls : List String) (ch : Edit)
    (h : edit_guard ls ch = false) : apply_one_edit ls ch = ls := by
  simp [apply_one_edit, h]

/-- C2: the applier sorts the batch descending by `start_line` and splices
each span against the progressively mutated list; consequently, for the
3-line content `["a", "b", "c"]` and the edit set
`{(3, 3, "X"), (1, 1, "Y")}`, the result is `["Y", "b", "X"]` for both
input orderings of the edit set. -/
theorem apply_edits_descending_order :
    (∀ changes : List Edit,
      (pySortedByStartDesc changes).Pairwise fun a b => b.start_line ≤ a.start_line) ∧
    apply_edits_to_lines ["a", "b", "c"] [⟨3, 3, "X"⟩, ⟨1, 1, "Y"⟩] = ["Y", "b", "X"] ∧
    apply_edits_to_lines ["a", "b", "c"] [⟨1, 1, "Y"⟩, ⟨3, 3, "X"⟩] = ["Y", "b", "X"] := by
  refine ⟨?_, by decide, by decide⟩
  intro changes
  induction changes with
  | nil => simp [pySortedByStartDesc]
  | cons c cs ih =>
    exact pairwise_insertDescByStart c _ ih

/-- C8: an edit rejected by the range guard leaves the current content
unchanged, and it never aborts the rest of the batch: folding the applier
over a batch containing the rejected edit gives the same result as folding
over the batch with that edit removed, so all other edits still apply. -/
theorem skipped_edit_preserves_batch (lines : List String) (l₁ l₂ : List Edit) (c : Edit)
    (h : edit_guard (List.foldl apply_one_edit lines l₁) c = false) :
    apply_one_edit (List.foldl apply_one_edit lines l₁) c = List.foldl apply_one_edit lines l₁ ∧
    List.foldl apply_one_edit lines (l₁ ++ c :: l₂) =
      List.foldl apply_one_edit lines (l₁ ++ l₂) := by
  have hskip := apply_one_edit_of_guard_false _ _ h
  refine ⟨hskip, ?_⟩
  rw [List.foldl_append, List.foldl_append, List.foldl_cons, hskip]

/-- C8 witness: against the 1-line content `["a"]` the edit `(5, 5, "Z")`
fails the guard, is skipped, and dropping it from a singleton batch leaves
the fold unchanged. -/
theorem skipped_edit_witness :
    edit_guard (List.foldl apply_one_edit ["a"] []) ⟨5, 5, "Z"⟩ = false ∧
    (apply_one_edit (List.foldl apply_one_edit ["a"] []) ⟨5, 5, "Z"⟩ =
       List.foldl apply_one_edit ["a"] [] ∧
     List.foldl apply_one_edit ["a"] ([] ++ (⟨5, 5, "Z"⟩ : Edit) :: []) =
       List.foldl apply_one_edit ["a"] ([] ++ [])) :=
  ⟨by decide, skipped_edit_preserves_batch ["a"] [] [] ⟨5, 5, "Z"⟩ (by decide)⟩

/-! ## Inline review publication (`post_review_with_inline_suggestions`,
ai_review.py 234-262, and `MAX_INLINE_COMMENTS`, line 17) -/

/-- An element of the `comments` list collected in `main`
(ai_review.py 390-396). -/
structure InlineComment where
  path : String
  start_line : ℤ
  end_line : ℤ
  replacement : String
  body_extra : Option String
deriving DecidableEq

/-- One dict of the `review_comments` payload (ai_review.py 246-254):
`start_line`/`start_side` are present only for multi-line comments. -/
structure ReviewCommentItem where
  path : String
  side : String
  line : ℤ
  body : String
  start_line : Option ℤ
  start_side : Option String
deriving DecidableEq

/-- The loop body of `post_review_with_inline_suggestions`: build the
comment body with the sanitized replacement inside a suggestion block,
append the optional rationale, and anchor the comment at `end_line`
(adding `start_line`/`start_side` when the range spans several lines). -/
def mk_review_comment (c : InlineComment) : ReviewCommentItem :=
  let body_text := "Sugestão automática:\n\n```suggestion\n" ++
    sanitize_replacement c.replacement ++ "\n```\n"
  let body_text :=
    match c.body_extra with
    | some extra => body_text ++ "\n" ++ extra ++ "\n"
    | none => body_text
  if c.end_line ≠ c.start_line then
    ⟨c.path, "RIGHT", c.end_line, body_text, some c.start_line, some "RIGHT"⟩
  else
    ⟨c.path, "RIGHT", c.end_line, body_text, none, none⟩

/-- Decimal digit string to a natural number, `none` when empty or not
all digits. -/
def decDigitsVal (l : List Char) : Option ℕ :=
  if l ≠ [] ∧ l.all Char.isDigit then
    some (l.foldl (fun a c => a * 10 + (c.toNat - 48)) 0)
  else none

/-- Python `int(s)` on a plain decimal literal with an optional sign. -/
def pyIntOfString (s : String) : Option ℤ :=
  match s.data with
  | '-' :: rest => (decDigitsVal rest).map (fun n => -(n : ℤ))
  | '+' :: rest => (decDigitsVal rest).map (fun n => (n : ℤ))
  | l => (decDigitsVal l).map (fun n => (n : ℤ))

/-- `MAX_INLINE_COMMENTS = int(os.getenv("MAX_INLINE_COMMENTS", "20"))`
(ai_review.py 17), with the environment lookup passed in as a parameter
and a failed integer parse as `none`. -/
def MAX_INLINE_COMMENTS_cfg (env : Option String) : Option ℤ :=
  pyIntOfString (env.getD "20")

/-- The pure payload construction of `post_review_with_inline_suggestions`
(ai_review.py 241-255): the review contains one comment per element of
`comments[:MAX_INLINE_COMMENTS]`. -/
def post_review_inline_comments (max_inline : ℤ) (comments : List InlineComment) :
    List ReviewCommentItem :=
  (pySliceTo max_inline comments).map mk_review_comment

/-- C9: the inline review is bounded by the configurable
`MAX_INLINE_COMMENTS` (default 20): exactly the first `max_inline`
collected comments are turned into review comments, and any batch
agreeing on the first `max_inline` comments produces the same review, so
later comments are dropped silently. -/
theorem inline_comment_limit :
    MAX_INLINE_COMMENTS_cfg none = some 20 ∧
    ∀ (m : ℕ) (cs : List InlineComment),
      post_review_inline_comments (m : ℤ) cs = (cs.take m).map mk_review_comment ∧
      (post_review_inline_comments (m : ℤ) cs).length = min m cs.length ∧
      ∀ cs₂ : List InlineComment, cs.take m = cs₂.take m →
        post_review_inline_comments (m : ℤ) cs = post_review_inline_comments (m : ℤ) cs₂ := by
  refine ⟨by decide, ?_⟩
  intro m cs
  have hslice : ∀ l : List InlineComment, pySliceTo (m : ℤ) l = l.take m := by
    intro l
    simp [pySliceTo]
  refine ⟨by rw [post_review_inline_comments, hslice], ?_, ?_⟩
  · rw [post_review_inline_comments, hslice, List.length_map, List.length_take]
  · intro cs₂ hpre
    rw [post_review_inline_comments, post_review_inline_comments, hslice, hslice, hpre]

/-! ## Snippet Locator (`find_snippet_line_span`,
ai_review_suggestions.py 205-221) -/

/-- The newline normalization of `find_snippet_line_span`:
`x.replace("\r\n", "\n")`. -/
def normalize_newlines (s : String) : String :=
  pyReplace s "\r\n" "\n"

/-- Translation of `find_snippet_line_span(content, snippet)`: `none` for
an empty snippet, otherwise normalize line endings on both sides, find the
first occurrence, and convert the character index into a 1-based line
span; `none` when the snippet does not occur. -/
def find_snippet_line_span (content snippet : String) : Option (ℕ × ℕ) :=
  if snippet = "" then none
  else
    match firstOccurFrom (normalize_newlines snippet).data
        (normalize_newlines content).data 0 with
    | none => none
    | some idx =>
      some (((normalize_newlines content).data.take idx).count '\n' + 1,
        ((normalize_newlines content).data.take idx).count '\n' + 1 +
          (pySplitChar '\n' (normalize_newlines snippet)).length - 1)

/-- A successful search returns the least occurrence index at or after the
start index. -/
theorem firstOccurFrom_eq_some (n : List Char) : ∀ (h : List Char) (i j : ℕ),
    firstOccurFrom n h i = some j →
    i ≤ j ∧ n.isPrefixOf (h.drop (j - i)) = true ∧
      ∀ k, i ≤ k → k < j → n.isPrefixOf (h.drop (k - i)) = false := by
  intro h
  induction h with
  | nil =>
    intro i j hfind
    simp only [firstOccurFrom] at hfind
    split at hfind
    next hpre =>
      cases hfind
      refine ⟨le_rfl, by simpa using hpre, ?_⟩
      intro k hk1 hk2
      omega
    next => cases hfind
  | cons c t ih =>
    intro i j hfind
    simp only [firstOccurFrom] at hfind
    split at hfind
    next hpre =>
      cases hfind
      refine ⟨le_rfl, by simpa using hpre, ?_⟩
      intro k hk1 hk2
      omega
    next hpre =>
      obtain ⟨hij, hdrop, hmin⟩ := ih (i + 1) j hfind
      refine ⟨by omega, ?_, ?_⟩
      · have : j - i = (j - (i + 1)) + 1 := by omega
        rw [this]
        simpa using hdrop
      · intro k hk1 hk2
        rcases Nat.eq_or_lt_of_le hk1 with hk | hk
        · subst hk
          simp only [Nat.sub_self, List.drop_zero]
          exact Bool.eq_false_iff.mpr hpre
        · have : k - i = (k - (i + 1)) + 1 := by omega
          rw [this]
          simpa using hmin k hk (by omega)

/-- A failed search means no occurrence at any index. -/
theorem firstOccurFrom_eq_none (n : List Char) : ∀ (h : List Char) (i : ℕ),
    firstOccurFrom n h i = none →
    ∀ k, n.isPrefixOf (h.drop k) = false := by
  intro h
  induction h with
  | nil =>
    intro i hfind k
    simp only [firstOccurFrom] at hfind
    split at hfind
    next => cases hfind
    next hpre =>
      simpa using Bool.eq_false_iff.mpr hpre
  | cons c t ih =>
    intro i hfind k
    simp only [firstOccurFrom] at hfind
    split at hfind
    next => cases hfind
    next hpre =>
      cases k with
      | zero =>
        simp only [List.drop_zero]
        exact Bool.eq_false_iff.mpr hpre
      | succ k2 =>
        simpa using ih (i + 1) hfind k2

/-- C4: for a non-empty snippet, after both sides are normalized to `\n`
line endings the locator reports the first exact occurrence only: the
returned `start_line` is one plus the number of line terminators before
the match, `end_line` is `start_line` plus the number of snippet lines
minus one, and a missing snippet yields `none` rather than an error. -/
theorem find_snippet_line_span_spec (content snippet : String) (h : snippet ≠ "") :
    (find_snippet_line_span content snippet = none ↔
      ∀ i, occursAtB (normalize_newlines content) (normalize_newlines snippet) i = false) ∧
    ∀ s e, find_snippet_line_span content snippet = some (s, e) →
      ∃ i, occursAtB (normalize_newlines content) (normalize_newlines snippet) i = true ∧
        (∀ j, j < i →
          occursAtB (normalize_newlines content) (normalize_newlines snippet) j = false) ∧
        s = ((normalize_newlines content).data.take i).count '\n' + 1 ∧
        e = s + (pySplitChar '\n' (normalize_newlines snippet)).length - 1 := by
  unfold find_snippet_line_span
  rw [if_neg h]
  cases hfind : firstOccurFrom (normalize_newlines snippet).data
      (normalize_newlines content).data 0 with
  | none =>
    constructor
    · constructor
      · intro _ i
        have := firstOccurFrom_eq_none _ _ _ hfind i
        simpa [occursAtB] using this
      · intro _
        rfl
    · intro s e hsome
      simp at hsome
  | some idx =>
    obtain ⟨-, hdrop, hmin⟩ := firstOccurFrom_eq_some _ _ _ _ hfind
    constructor
    · constructor
      · intro hcontr
        simp at hcontr
      · intro hall
        have := hall idx
        rw [occursAtB] at this
        rw [Nat.sub_zero] at hdrop
        rw [this] at hdrop
        cases hdrop
    · intro s e hsome
      simp only [Option.some.injEq, Prod.mk.injEq] at hsome
      refine ⟨idx, ?_, ?_, hsome.1.symm, ?_⟩
      · rw [occursAtB]
        simpa using hdrop
      · intro j hj
        have := hmin j (Nat.zero_le j) hj
        rw [occursAtB]
        simpa using this
      · rw [← hsome.1, ← hsome.2]

/-- C4 witness: in the content `"a\nb\nc"` the snippet `"b\nc"` is located
at its first occurrence, lines 2 to 3. -/
theorem find_snippet_line_span_witness :
    ("b\nc" : String) ≠ "" ∧
    ((find_snippet_line_span "a\nb\nc" "b\nc" = none ↔
       ∀ i, occursAtB (normalize_newlines "a\nb\nc") (normalize_newlines "b\nc") i = false) ∧
     ∀ s e, find_snippet_line_span "a\nb\nc" "b\nc" = some (s, e) →
       ∃ i, occursAtB (normalize_newlines "a\nb\nc") (normalize_newlines "b\nc") i = true ∧
         (∀ j, j < i →
           occursAtB (normalize_newlines "a\nb\nc") (normalize_newlines "b\nc") j = false) ∧
         s = ((normalize_newlines "a\nb\nc").data.take i).count '\n' + 1 ∧
         e = s + (pySplitChar '\n' (normalize_newlines "b\nc")).length - 1) :=
  ⟨by decide, find_snippet_line_span_spec "a\nb\nc" "b\nc" (by decide)⟩

/-- C10: the locator treats an empty snippet as unfindable and returns
`none` for every content, even though the empty string occurs at the start
of every content. -/
theorem find_snippet_empty_none :
    (∀ content : String, find_snippet_line_span content "" = none) ∧
    (∀ content : String, occursAtB content "" 0 = true) := by
  constructor
  · intro content
    simp [find_snippet_line_span]
  · intro content
    simp [occursAtB]

/-! ## Diff Coordinate Mapper (`parse_new_file_lines_from_patch`,
ai_review.py 181-211, and `build_changed_line_ranges_from_patch`,
ai_review_suggestions.py 224-241)

Both functions parse the patch with the external `unidiff.PatchSet`,
modelled here at its interface: hunks introduced by `@@ -a,b +c,d @@`
headers, whose bodies are added/removed/context lines; a hunk body that
ends before the declared counts are exhausted, or that contains a line of
an unexpected shape, makes the parse raise (`Except.error`), matching the
`UnidiffParseError` exceptions of the library. -/

/-- Tag of one hunk body line. -/
inductive DiffLineTag where
  | added
  | removed
  | context
deriving DecidableEq

/-- One parsed hunk: the declared post-change start and length, and the
tags of its body lines in order. -/
structure Hunk where
  target_start : ℤ
  target_length : ℤ
  lines : List DiffLineTag
deriving DecidableEq

/-- Parse the `-a,b` or `+c,d` half of a hunk header; a missing count
defaults to 1. -/
def parseHunkCount (sign : Char) (tok : String) : Option (ℤ × ℤ) :=
  match tok.data with
  | c :: rest =>
    if c = sign then
      match pySplitChar ',' (String.mk rest) with
      | [a] => (decDigitsVal a.data).map (fun n => ((n : ℤ), 1))
      | [a, b] =>
        match decDigitsVal a.data, decDigitsVal b.data with
        | some n, some m => some ((n : ℤ), (m : ℤ))
        | _, _ => none
      | _ => none
    else none
  | [] => none

/-- Parse a hunk header line `@@ -a,b +c,d @@ ...`, returning
`(source_start, source_length, target_start, target_length)`. -/
def parseHunkHeader (line : String) : Option (ℤ × ℤ × ℤ × ℤ) :=
  match pySplitChar ' ' line with
  | "@@" :: src :: tgt :: tail :: _ =>
    if pyStartsWith tail "@@" then
      match parseHunkCount '-' src, parseHunkCount '+' tgt with
      | some (a, b), some (c, d) => some (a, b, c, d)
      | _, _ => none
    else none
  | _ => none

/-- Consume the body of one hunk: lines are taken until the declared
source and target counts are both exhausted; an added line consumes a
target count, a removed line a source count, a context line both; a
`\ No newline` marker consumes nothing; anything else, or running out of
lines, is a parse error as in unidiff. -/
def consumeHunkBody : ℕ → List String → ℕ → ℕ → Except String (List DiffLineTag × List String)
  | _, rest, 0, 0 => .ok ([], rest)
  | 0, _, _, _ => .error "parser fuel exhausted"
  | fuel + 1, lines, srcRem, tgtRem =>
    match lines with
    | [] => .error "Hunk is shorter than expected"
    | line :: rest =>
      if pyStartsWith line "+" then
        match tgtRem with
        | 0 => .error "Hunk is longer than expected"
        | tgtRem2 + 1 =>
          match consumeHunkBody fuel rest srcRem tgtRem2 with
          | .ok (tags, rest2) => .ok (.added :: tags, rest2)
          | .error e => .error e
      else if pyStartsWith line "-" then
        match srcRem with
        | 0 => .error "Hunk is longer than expected"
        | srcRem2 + 1 =>
          match consumeHunkBody fuel rest srcRem2 tgtRem with
          | .ok (tags, rest2) => .ok (.removed :: tags, rest2)
          | .error e => .error e
      else if pyStartsWith line " " ∨ line = "" then
        match srcRem, tgtRem with
        | srcRem2 + 1, tgtRem2 + 1 =>
          match consumeHunkBody fuel rest srcRem2 tgtRem2 with
          | .ok (tags, rest2) => .ok (.context :: tags, rest2)
          | .error e => .error e
        | _, _ => .error "Hunk is longer than expected"
      else if pyStartsWith line "\\" then
        match consumeHunkBody fuel rest srcRem tgtRem with
        | .ok (tags, rest2) => .ok (tags, rest2)
        | .error e => .error e
      else .error "Hunk diff line expected"

/-- Scan the patch lines: each parsable hunk header starts a hunk whose
body is consumed with `consumeHunkBody`; other lines (file headers,
garbage) are skipped, as unidiff skips them. -/
def parsePatchLines : ℕ → List String → Except String (List Hunk)
  | _, [] => .ok []
  | 0, _ => .error "parser fuel exhausted"
  | fuel + 1, line :: rest =>
    match parseHunkHeader line with
    | some (_, srcLen, tgtStart, tgtLen) =>
      match consumeHunkBody (rest.length + 1) rest srcLen.toNat tgtLen.toNat with
      | .error e => .error e
      | .ok (tags, rest2) =>
        match parsePatchLines fuel rest2 with
        | .error e => .error e
        | .ok hunks => .ok (⟨tgtStart, tgtLen, tags⟩ :: hunks)
    | none => parsePatchLines fuel rest

/-- The modelled `unidiff.PatchSet` boundary: the list of hunks of the
patch text, or a parse error. -/
def parsePatch (patch : String) : Except String (List Hunk) :=
  parsePatchLines ((pySplitChar '\n' patch).length + 1) (pySplitChar '\n' patch)

/-- The per-hunk loop of `parse_new_file_lines_from_patch`
(ai_review.py 193-208): walk the hunk body with a running post-change
line counter starting at `hunk.target_start`; added and context lines
record the counter into the set and the min/max and advance it, removed
lines do neither. -/
def hunkFold (st : Option ℤ × Option ℤ × Finset ℤ) (h : Hunk) :
    Option ℤ × Option ℤ × Finset ℤ :=
  (h.lines.foldl
    (fun (p : ℤ × (Option ℤ × Option ℤ × Finset ℤ)) tag =>
      match tag with
      | .removed => p
      | _ =>
        (p.1 + 1,
         (some (match p.2.1 with | none => p.1 | some m => min m p.1),
          some (match p.2.2.1 with | none => p.1 | some m => max m p.1),
          insert p.1 p.2.2.2)))
    (h.target_start, st)).2

/-- Translation of `parse_new_file_lines_from_patch(patch)`: a blank patch
returns `(0, 0, ∅)`; otherwise the patch is parsed — with no exception
handling, so a parse failure propagates to the caller — and the hunks are
folded into `(min_right, max_right, right_line_set)`, with `(0, 0)`
substituted when no right-side line exists. -/
def parse_new_file_lines_from_patch (patch : String) :
    Except String (ℤ × ℤ × Finset ℤ) :=
  if pyStripEmpty patch then .ok (0, 0, (∅ : Finset ℤ))
  else
    match parsePatch patch with
    | .error e => .error e
    | .ok hunks =>
      match hunks.foldl hunkFold (none, none, ∅) with
      | (none, _, s) => .ok (0, 0, s)
      | (some mn, mx, s) => .ok (mn, mx.getD 0, s)

/-- Translation of `build_changed_line_ranges_from_patch(patch_text)`
(ai_review_suggestions.py 224-241): the whole parse and loop are inside
`try ... except: pass`, so any parse failure yields the ranges collected
so far — the empty list, since `PatchSet` parses eagerly before the loop
runs; each hunk with positive target length contributes
`(target_start, target_start + target_length - 1)`. -/
def build_changed_line_ranges_from_patch (patch_text : String) : List (ℤ × ℤ) :=
  match parsePatch patch_text with
  | .error _ => []
  | .ok hunks =>
    hunks.foldl
      (fun acc h =>
        if h.target_length > 0 then
          acc ++ [(h.target_start, h.target_start + h.target_length - 1)]
        else acc)
      []

/-- C3 counterexample: a malformed diff (a hunk declaring two target lines
but providing one) does not map to `(0, 0, ∅)`: the mapper propagates the
parse failure as an error to its caller, which in `main` is the bare
per-file loop, so the remaining files are not processed. -/
theorem parse_new_file_lines_malformed_errors :
    parse_new_file_lines_from_patch "--- a\n+++ b\n@@ -1,2 +1,2 @@\n+x\n" =
      Except.error "Hunk is shorter than expected" := by
  rfl

/-- C3 amended: an empty or whitespace-only diff yields `(0, 0, ∅)`
unconditionally; but an unparsable diff is caught only in
`build_changed_line_ranges_from_patch`, which degrades to the empty range
list, while `parse_new_file_lines_from_patch` propagates the parse error
to its caller. -/
theorem parse_error_handling (patch msg : String) :
    (pyStripEmpty patch = true →
      parse_new_file_lines_from_patch patch = .ok (0, 0, (∅ : Finset ℤ))) ∧
    (parsePatch patch = Except.error msg →
      build_changed_line_ranges_from_patch patch = [] ∧
      (pyStripEmpty patch = false →
        parse_new_file_lines_from_patch patch = .error msg)) := by
  refine ⟨?_, ?_⟩
  · intro hblank
    rw [parse_new_file_lines_from_patch, if_pos hblank]
  · intro h
    refine ⟨?_, ?_⟩
    · rw [build_changed_line_ranges_from_patch, h]
    · intro hblank
      rw [parse_new_file_lines_from_patch, if_neg (by simp [hblank]), h]

/-- C3 amended witness: the empty diff is blank and maps to `(0, 0, ∅)`;
the malformed diff above is not blank, its parse fails,
`build_changed_line_ranges_from_patch` degrades to `[]`, and
`parse_new_file_lines_from_patch` propagates the error. -/
theorem parse_error_handling_witness :
    (pyStripEmpty "" = true ∧
     parse_new_file_lines_from_patch "" = .ok (0, 0, (∅ : Finset ℤ))) ∧
    (parsePatch "--- a\n+++ b\n@@ -1,2 +1,2 @@\n+x\n" =
       Except.error "Hunk is shorter than expected" ∧
     pyStripEmpty "--- a\n+++ b\n@@ -1,2 +1,2 @@\n+x\n" = false ∧
     build_changed_line_ranges_from_patch "--- a\n+++ b\n@@ -1,2 +1,2 @@\n+x\n" = [] ∧
     parse_new_file_lines_from_patch "--- a\n+++ b\n@@ -1,2 +1,2 @@\n+x\n" =
       .error "Hunk is shorter than expected") :=
  ⟨⟨by rfl, (parse_error_handling "" "").1 (by rfl)⟩,
   ⟨by rfl, by rfl,
    ((parse_error_handling "--- a\n+++ b\n@@ -1,2 +1,2 @@\n+x\n"
        "Hunk is shorter than expected").2 (by rfl)).1,
    ((parse_error_handling "--- a\n+++ b\n@@ -1,2 +1,2 @@\n+x\n"
        "Hunk is shorter than expected").2 (by rfl)).2 (by rfl)⟩⟩

/-! ## Suggestion Extractor (`extract_suggestions_json`,
ai_review_suggestions.py 187-202)

The function runs `re.findall(r"```json\s*(\{.*?\})\s*```", text,
re.DOTALL | re.IGNORECASE)` and then `json.loads` on each block in
reverse.  The regex search and the JSON parser (stdlib collaborators) are
modelled below at their interfaces: leftmost non-overlapping matches with
a non-greedy body, and a JSON reader producing Python-like values (JSON
numbers restricted to integers; the suggestion schema only exchanges
integers, strings, lists and objects). -/

/-- The opening brace character, kept out of literals. -/
def braceOpen : Char := Char.ofNat 123

/-- The closing brace character, kept out of literals. -/
def braceClose : Char := Char.ofNat 125

/-- Python values produced by `json.loads`, as far as the pipeline needs. -/
inductive PyVal where
  | str : String → PyVal
  | int : ℤ → PyVal
  | bool : Bool → PyVal
  | null : PyVal
  | list : List PyVal → PyVal
  | dict : List (String × PyVal) → PyVal

/-- JSON insignificant whitespace. -/
def jsonSkipWs (cs : List Char) : List Char :=
  cs.dropWhile fun c => c == ' ' || c == '\t' || c == '\n' || c == '\r'

/-- Value of one hexadecimal digit. -/
def hexDigitVal (c : Char) : Option ℕ :=
  if c.isDigit then some (c.toNat - 48)
  else if 'a' ≤ c ∧ c ≤ 'f' then some (c.toNat - 87)
  else if 'A' ≤ c ∧ c ≤ 'F' then some (c.toNat - 55)
  else none

/-- A run of decimal digits as an integer, with the rest of the input. -/
def parseDigits (cs : List Char) : Option (ℤ × List Char) :=
  if cs.takeWhile Char.isDigit = [] then none
  else
    some ((cs.takeWhile Char.isDigit).foldl (fun a c => a * 10 + ((c.toNat : ℤ) - 48)) 0,
      cs.dropWhile Char.isDigit)

/-- JSON string body after the opening quote, with the usual escapes. -/
def parseJsonStr : List Char → List Char → Option (String × List Char)
  | [], _ => none
  | '"' :: rest, acc => some (String.mk acc.reverse, rest)
  | '\\' :: 'u' :: a :: b :: c :: d :: rest, acc =>
    match hexDigitVal a, hexDigitVal b, hexDigitVal c, hexDigitVal d with
    | some x1, some x2, some x3, some x4 =>
      parseJsonStr rest (Char.ofNat (((x1 * 16 + x2) * 16 + x3) * 16 + x4) :: acc)
    | _, _, _, _ => none
  | '\\' :: c :: rest, acc =>
    if c == '"' then parseJsonStr rest ('"' :: acc)
    else if c == '\\' then parseJsonStr rest ('\\' :: acc)
    else if c == '/' then parseJsonStr rest ('/' :: acc)
    else if c == 'n' then parseJsonStr rest ('\n' :: acc)
    else if c == 't' then parseJsonStr rest ('\t' :: acc)
    else if c == 'r' then parseJsonStr rest ('\r' :: acc)
    else if c == 'b' then parseJsonStr rest ('\x08' :: acc)
    else if c == 'f' then parseJsonStr rest ('\x0c' :: acc)
    else none
  | c :: rest, acc => parseJsonStr rest (c :: acc)

mutual

/-- Fuelled JSON value reader (the model of `json.loads` at its
interface). -/
def parseJsonVal : ℕ → List Char → Option (PyVal × List Char)
  | 0, _ => none
  | fuel + 1, cs =>
    match jsonSkipWs cs with
    | [] => none
    | c :: rest =>
      if c == braceOpen then
        match jsonSkipWs rest with
        | [] => none
        | c2 :: r2 =>
          if c2 == braceClose then some (.dict [], r2)
          else parseJsonObj fuel (c2 :: r2) []
      else if c == '[' then
        match jsonSkipWs rest with
        | [] => none
        | c2 :: r2 =>
          if c2 == ']' then some (.list [], r2)
          else parseJsonArr fuel (c2 :: r2) []
      else if c == '"' then
        match parseJsonStr rest [] with
        | some (s, r) => some (.str s, r)
        | none => none
      else if c == 't' then
        match rest with
        | 'r' :: 'u' :: 'e' :: r => some (.bool true, r)
        | _ => none
      else if c == 'f' then
        match rest with
        | 'a' :: 'l' :: 's' :: 'e' :: r => some (.bool false, r)
        | _ => none
      else if c == 'n' then
        match rest with
        | 'u' :: 'l' :: 'l' :: r => some (.null, r)
        | _ => none
      else if c == '-' then
        match parseDigits rest with
        | some (n, r) => some (.int (-n), r)
        | none => none
      else if c.isDigit then
        match parseDigits (c :: rest) with
        | some (n, r) => some (.int n, r)
        | none => none
      else none

/-- Members of a JSON object, positioned at a key. -/
def parseJsonObj : ℕ → List Char → List (String × PyVal) → Option (PyVal × List Char)
  | 0, _, _ => none
  | fuel + 1, cs, acc =>
    match cs with
    | [] => none
    | c :: rest =>
      if c == '"' then
        match parseJsonStr rest [] with
        | none => none
        | some (key, r1) =>
          match jsonSkipWs r1 with
          | ':' :: r2 =>
            match parseJsonVal fuel r2 with
            | none => none
            | some (v, r3) =>
              match jsonSkipWs r3 with
              | [] => none
              | c4 :: r4 =>
                if c4 == ',' then parseJsonObj fuel (jsonSkipWs r4) ((key, v) :: acc)
                else if c4 == braceClose then some (.dict ((key, v) :: acc).reverse, r4)
                else none
          | _ => none
      else none

/-- Elements of a JSON array, positioned at a value. -/
def parseJsonArr : ℕ → List Char → List PyVal → Option (PyVal × List Char)
  | 0, _, _ => none
  | fuel + 1, cs, acc =>
    match parseJsonVal fuel cs with
    | none => none
    | some (v, r) =>
      match jsonSkipWs r with
      | ',' :: r2 => parseJsonArr fuel (jsonSkipWs r2) (v :: acc)
      | ']' :: r2 => some (.list (v :: acc).reverse, r2)
      | _ => none

end

/-- Python `json.loads(s)`: a full JSON document with only trailing
whitespace allowed, `none` on failure (the `except` path). -/
def pyJsonLoads (s : String) : Option PyVal :=
  match parseJsonVal (2 * s.length + 4) s.data with
  | some (v, rest) => if jsonSkipWs rest = [] then some v else none
  | none => none

/-- Lookup in a parsed JSON object; a duplicated key keeps the last
binding, as a Python dict built by `json.loads` does. -/
def dictLookup (kvs : List (String × PyVal)) (key : String) : Option PyVal :=
  kvs.foldl (fun acc kv => if kv.1 = key then some kv.2 else acc) none

/-- The whitespace class of the regex `\s` on ASCII text. -/
def reWs (c : Char) : Bool :=
  c == ' ' || c == '\t' || c == '\n' || c == '\r' || c == '\x0b' || c == '\x0c'

/-- Case-insensitive literal prefix match (the pattern is given in
lowercase); returns the rest of the input. -/
def matchCiPrefix : List Char → List Char → Option (List Char)
  | [], cs => some cs
  | _ :: _, [] => none
  | p :: ps, c :: cs => if c.toLower == p then matchCiPrefix ps cs else none

/-- The backtick character, kept out of literals. -/
def backquote : Char := Char.ofNat 96

/-- The literal head of the block pattern: three backticks and `json`. -/
def fenceJson : List Char := [backquote, backquote, backquote, 'j', 's', 'o', 'n']

/-- The literal tail of the block pattern: three backticks. -/
def fenceClose : List Char := [backquote, backquote, backquote]

/-- The non-greedy body: the capture extends to the first closing brace
that is followed by optional whitespace and a closing fence.  Returns the
characters strictly between the braces and the input after the closing
fence. -/
def findCloseBrace : List Char → List Char → Option (List Char × List Char)
  | [], _ => none
  | c :: rest, acc =>
    if c == braceClose then
      if fenceClose.isPrefixOf (rest.dropWhile reWs) then
        some (acc.reverse, (rest.dropWhile reWs).drop 3)
      else findCloseBrace rest (c :: acc)
    else findCloseBrace rest (c :: acc)

/-- Attempt the whole block pattern anchored at the head of the input. -/
def tryMatchJsonBlock (cs : List Char) : Option (String × List Char) :=
  match matchCiPrefix fenceJson cs with
  | none => none
  | some afterTag =>
    match afterTag.dropWhile reWs with
    | [] => none
    | c :: rest =>
      if c == braceOpen then
        match findCloseBrace rest [] with
        | some (inner, afterAll) =>
          some (String.mk (braceOpen :: (inner ++ [braceClose])), afterAll)
        | none => none
      else none

/-- Leftmost non-overlapping matches, as `re.findall` produces them: try
the pattern at each position, and continue after a whole match. -/
def scanJsonBlocks : ℕ → List Char → List String
  | 0, _ => []
  | _ + 1, [] => []
  | fuel + 1, c :: rest =>
    match tryMatchJsonBlock (c :: rest) with
    | some (cap, after) => cap :: scanJsonBlocks fuel after
    | none => scanJsonBlocks fuel rest

/-- `re.findall(r"```json\s*(\{.*?\})\s*```", text, DOTALL | IGNORECASE)`:
the captured brace groups of all block matches, in order. -/
def findJsonBlocks (s : String) : List String :=
  scanJsonBlocks (s.length + 1) s.data

/-- The per-block test of `extract_suggestions_json` (lines 195-201):
`json.loads` succeeds, the result is a dict, its `"suggestions"` entry
exists and is a list; then that list is the result. -/
def block_suggestions (raw : String) : Option (List PyVal) :=
  match pyJsonLoads raw with
  | some (PyVal.dict kvs) =>
    match dictLookup kvs "suggestions" with
    | some (PyVal.list l) => some l
    | _ => none
  | _ => none

/-- Translation of `extract_suggestions_json(text)`: no block means `[]`;
otherwise the blocks are tried in reverse order and the first success is
returned; if every block fails, `[]`. -/
def extract_suggestions_json (text : String) : List PyVal :=
  if findJsonBlocks text = [] then []
  else
    match (findJsonBlocks text).reverse.findSome? block_suggestions with
    | some l => l
    | none => []

/-- C5: the extractor returns the suggestions of the last block that
parses as an object with a `suggestions` sequence — any later block that
fails the shape test is skipped without error — and when no block passes
(in particular when there is no block at all) the result is the empty
sequence rather than a failure. -/
theorem extract_suggestions_last_block (text : String) :
    ((∀ b ∈ findJsonBlocks text, block_suggestions b = none) →
      extract_suggestions_json text = []) ∧
    ∀ (l₁ l₂ : List String) (b : String) (s : List PyVal),
      findJsonBlocks text = l₁ ++ b :: l₂ →
      block_suggestions b = some s →
      (∀ b₂ ∈ l₂, block_suggestions b₂ = none) →
      extract_suggestions_json text = s := by
  constructor
  · intro hall
    unfold extract_suggestions_json
    by_cases hempty : findJsonBlocks text = []
    · rw [if_pos hempty]
    · rw [if_neg hempty]
      have hnone : (findJsonBlocks text).reverse.findSome? block_suggestions = none := by
        rw [List.findSome?_eq_none_iff]
        intro x hx
        exact hall x (List.mem_reverse.mp hx)
      rw [hnone]
  · intro l₁ l₂ b s heq hb hnone
    unfold extract_suggestions_json
    rw [heq]
    have hne : l₁ ++ b :: l₂ ≠ [] := by simp
    rw [if_neg hne]
    have hrev : (l₁ ++ b :: l₂).reverse = l₂.reverse ++ b :: l₁.reverse := by
      simp
    rw [hrev, List.findSome?_append]
    have h₂ : l₂.reverse.findSome? block_suggestions = none := by
      rw [List.findSome?_eq_none_iff]
      intro x hx
      exact hnone x (List.mem_reverse.mp hx)
    rw [h₂, List.findSome?_cons, hb]
    rfl

/-- C5 witness: in a response with two blocks — the first has a
`suggestions` entry that is not a sequence, the last is well-formed — the
extractor returns the suggestions of the last block. -/
theorem extract_suggestions_witness :
    findJsonBlocks
        "```json \x7b\"suggestions\": 3\x7d ``` ```json \x7b\"suggestions\": [2]\x7d ```" =
      ["\x7b\"suggestions\": 3\x7d"] ++ "\x7b\"suggestions\": [2]\x7d" :: [] ∧
    block_suggestions "\x7b\"suggestions\": [2]\x7d" = some [PyVal.int 2] ∧
    (∀ b₂ ∈ ([] : List String), block_suggestions b₂ = none) ∧
    extract_suggestions_json
        "```json \x7b\"suggestions\": 3\x7d ``` ```json \x7b\"suggestions\": [2]\x7d ```" =
      [PyVal.int 2] :=
  ⟨by rfl, by rfl, by simp,
    (extract_suggestions_last_block
        "```json \x7b\"suggestions\": 3\x7d ``` ```json \x7b\"suggestions\": [2]\x7d ```").2
      ["\x7b\"suggestions\": 3\x7d"] [] "\x7b\"suggestions\": [2]\x7d" [PyVal.int 2]
      (by rfl) (by rfl) (by simp)⟩
